import Mathlib

/-!
Verification of the PDF-Wizard size-targeted encoding search and parallel
page-processing pipeline.

The definitions below are shallow embeddings of the Python source:

* `searchLoop`, `jpegQualitySearch`, `resizeToTarget`
  — `pdf_wizard/engine/image_processor.py`, `resize_image` (step 2).
* `currentDeflate`, `saveSettingsAt`, `compressLoopGo`, `compress_pdf`
  — `pdf_wizard/engine/compressor.py`, `compress_pdf`.
* `chunkSize`, `chunksFromF`, `buildChunks`, `runParallel`
  — `pdf_wizard/engine/image_processor.py`, `pdf_to_images`, and the
  scheduler abstraction used by `remove_blank_pages`.
* `isBrightAt`, `scanPageBrightness`
  — `pdf_wizard/engine/academic.py`, `_scan_page_brightness`.

Machine sizes are modelled as `Nat` (bytes) or `ℚ` (megabytes, mirroring the
float MB arithmetic of the compressor; float division by the constant 2^20 is
exact, so order comparisons agree with the rational model).  An encoder is a
function `Nat → Nat` from quality to encoded byte size: encoding at a fixed
quality is assumed deterministic.
-/

namespace PDFWizard

/-- The JPEG binary-search loop from `resize_image`.  Mirrors the Python
`for attempt in range(max_iterations)` body: probe `quality = (low+high)//2`;
on a fit record it as `best` and raise `low`, otherwise lower `high`; break
once `high < low`.  `fuel` is the remaining number of loop iterations
(`max_iterations` is 10 in the source).  Subtraction is `Nat` truncated; on
every state reachable from the initial `(5, 95)` the mid-point is ≥ 5, so the
truncation is never exercised. -/
def searchLoop (encode : Nat → Nat) (budget : Nat) :
    Nat → Nat → Nat → Nat → Bool → Nat × Bool
  | 0, _, _, best, found => (best, found)
  | fuel + 1, low, high, best, found =>
    let quality := (low + high) / 2
    if encode quality ≤ budget then
      (if high < quality + 1 then (quality, true)
       else searchLoop encode budget fuel (quality + 1) high quality true)
    else
      (if quality - 1 < low then (best, found)
       else searchLoop encode budget fuel low (quality - 1) best found)

/-- The size-targeted quality search of `resize_image`: first probe quality
95 (`img.save(..., quality=95)`); if that already fits the byte budget the
search is over, otherwise run the binary-search loop on `[5, 95]` starting
from `best_quality = 5`, `found_solution = False`.  Returns
`(best_quality, found_solution)`. -/
def jpegQualitySearch (encode : Nat → Nat) (budget maxIterations : Nat) :
    Nat × Bool :=
  if encode 95 ≤ budget then (95, true)
  else searchLoop encode budget maxIterations 5 95 5 false

/-- Output raster format selected by the caller of `resize_image`. -/
inductive ImgFormat
  | png
  | jpeg
deriving DecidableEq, Repr

/-- One file write performed by `resize_image`: a PNG write carries the
`compress_level` it was saved with, a JPEG write the `quality`.  Both carry
the resulting byte size. -/
inductive FileWrite
  | png (compressLevel : Nat) (size : Nat)
  | jpeg (quality : Nat) (size : Nat)
deriving DecidableEq, Repr

/-- Byte size of a file write. -/
def FileWrite.size : FileWrite → Nat
  | .png _ s => s
  | .jpeg _ s => s

/-- Observable outcome of the size-targeted branch of `resize_image`:
the returned pair `(success, error_message)`, the file writes performed, and
the two warnings the branch can emit (`"PNG compression limit reached"`,
`"Could not meet target size even at lowest quality"`). -/
structure ResizeOutcome where
  ok : Bool
  err : Option String
  writes : List FileWrite
  warnedPngLimit : Bool
  warnedFloor : Bool
deriving DecidableEq, Repr

/-- The `target_size_kb` branch of `resize_image`.  `pngEncode` maps a PNG
`compress_level` to the encoded byte size, `encode` maps a JPEG quality to
the encoded byte size.  PNG: one save at `compress_level = 9`, a warning when
the result still exceeds the byte target, and success regardless.  JPEG: run
`jpegQualitySearch`; when no probe fitted, fall back to `best_quality = 5`
with a warning; write once at the final quality; success regardless. -/
def resizeToTarget (fmt : ImgFormat) (pngEncode encode : Nat → Nat)
    (targetKB maxIterations : Nat) : ResizeOutcome :=
  let targetBytes := targetKB * 1024
  match fmt with
  | .png =>
    let finalSize := pngEncode 9
    { ok := true, err := none, writes := [.png 9 finalSize],
      warnedPngLimit := decide (targetBytes < finalSize), warnedFloor := false }
  | .jpeg =>
    let r := jpegQualitySearch encode targetBytes maxIterations
    let bestQuality := if r.2 then r.1 else 5
    { ok := true, err := none,
      writes := [.jpeg bestQuality (encode bestQuality)],
      warnedPngLimit := false, warnedFloor := !r.2 }

/-- The keyword arguments of the `doc.save` call in `compress_pdf`. -/
structure SaveSettings where
  garbage : Nat
  deflate : Bool
  deflateImages : Bool
  deflateFonts : Bool
  clean : Bool
  pretty : Bool
deriving DecidableEq, Repr

/-- `current_deflate = min(settings['deflate'] + attempt, 9)` as computed at
the top of each compression attempt in `compress_pdf`.  In the source this
value is never passed to `doc.save` (see `saveSettingsAt`). -/
def currentDeflate (presetDeflate attempt : Nat) : Nat :=
  min (presetDeflate + attempt) 9

/-- The settings actually passed to `doc.save` on a given attempt in
`compress_pdf`: `garbage=4, deflate=True, deflate_images=True,
deflate_fonts=True, clean=True, pretty=False` — identical on every attempt;
the attempt number does not appear in the call. -/
def saveSettingsAt (_attempt : Nat) : SaveSettings :=
  ⟨4, true, true, true, true, false⟩

/-- The `{dpi, jpeg_quality, deflate}` quality presets of `compress_pdf`
(`quality_settings`), with the `'medium'` fallback for unknown keys. -/
structure QualityPreset where
  dpi : Nat
  jpegQuality : Nat
  deflate : Nat
deriving DecidableEq, Repr

/-- `quality_settings.get(quality, quality_settings['medium'])`. -/
def qualitySettings (quality : String) : QualityPreset :=
  if quality = "high" then ⟨200, 90, 1⟩
  else if quality = "low" then ⟨100, 75, 5⟩
  else ⟨150, 85, 3⟩

/-- The `for attempt in range(max_iterations)` loop of `compress_pdf`.
`save` maps the settings of a `doc.save` call to the size (in MB, as `ℚ`) of
the file it leaves at the output path; each iteration computes the (unused)
`current_deflate`, saves with `saveSettingsAt attempt`, measures the result,
and stops early when it is within the 5% tolerance of the target.  Returns
the size left at the output path by the last executed save. -/
def compressLoopGo (save : SaveSettings → ℚ) (targetMB : ℚ)
    (presetDeflate : Nat) : Nat → Nat → ℚ → ℚ
  | 0, _, lastSize => lastSize
  | fuel + 1, attempt, _ =>
    let _cd := currentDeflate presetDeflate attempt
    let resultSize := save (saveSettingsAt attempt)
    if resultSize ≤ targetMB * (105 / 100) then resultSize
    else compressLoopGo save targetMB presetDeflate fuel (attempt + 1) resultSize

/-- Size (MB) at the output path after the attempt loop of `compress_pdf`. -/
def compressLoop (save : SaveSettings → ℚ) (targetMB : ℚ)
    (presetDeflate maxIterations : Nat) : ℚ :=
  compressLoopGo save targetMB presetDeflate maxIterations 0 0

/-- Which terminal branch of `compress_pdf` produced the result: the
non-regression guard (original copied to the output path), the success path
within tolerance, or the target-not-met warning path. -/
inductive CompressBranch
  | usedOriginal
  | metTarget
  | targetNotMet
deriving DecidableEq, Repr

/-- Observable outcome of `compress_pdf`: the returned
`(success, error_message)` pair, the size (MB) of the file left at the
output path, the reported reduction percentage, and the terminal branch. -/
structure CompressResult where
  ok : Bool
  err : Option String
  outputSize : ℚ
  reductionPct : ℚ
  branch : CompressBranch
deriving DecidableEq, Repr

/-- `compress_pdf` after opening the document: run the attempt loop, then
apply the non-regression guard (`final_size > original_size` → copy the
original over the output, report 0% reduction) and otherwise report either
target-met success or a target-not-met warning; all three branches return
`(True, None)`. -/
def compress_pdf (save : SaveSettings → ℚ) (originalSize targetMB : ℚ)
    (presetDeflate maxIterations : Nat) : CompressResult :=
  let finalSize := compressLoop save targetMB presetDeflate maxIterations
  let pct := (originalSize - finalSize) / originalSize * 100
  if originalSize < finalSize then
    { ok := true, err := none, outputSize := originalSize, reductionPct := 0,
      branch := .usedOriginal }
  else if finalSize ≤ targetMB * (105 / 100) then
    { ok := true, err := none, outputSize := finalSize, reductionPct := pct,
      branch := .metTarget }
  else
    { ok := true, err := none, outputSize := finalSize, reductionPct := pct,
      branch := .targetNotMet }

/-- `chunk_size = max(1, page_count // num_cores)` from `pdf_to_images`. -/
def chunkSize (pageCount workerCount : Nat) : Nat :=
  max 1 (pageCount / workerCount)

/-- The chunk-building loop of `pdf_to_images`:
`for i in range(0, page_count, chunk_size): list(range(i, min(i+chunk_size,
page_count)))`, unrolled from start index `i` with explicit fuel.  Since the
start index advances by `cs ≥ 1` each step, `fuel = pageCount` iterations
always suffice (with `cs = 0` the Python `range` would raise; the code
guarantees `cs ≥ 1`). -/
def chunksFromF : Nat → Nat → Nat → Nat → List (List Nat)
  | 0, _, _, _ => []
  | fuel + 1, n, cs, i =>
    if i < n then List.range' i (min (i + cs) n - i) :: chunksFromF fuel n cs (i + cs)
    else []

/-- All page-index chunks built for one extraction job. -/
def buildChunks (pageCount cs : Nat) : List (List Nat) :=
  chunksFromF pageCount pageCount cs 0

/-- One worker's output: its chunk's per-page results, pages processed in
ascending index order (the worker's `for page_num in page_indices` loop). -/
def runWorker (f : Nat → α) (chunk : List Nat) : List α :=
  chunk.map f

/-- The coordinator's view of completed work: chunks finish in an arbitrary
`order` (a permutation of the chunk ids), each delivering its id together
with its chunk-local ordered result list. -/
def collectChunks (f : Nat → α) (cl : List (List Nat)) (order : List Nat) :
    List (Nat × List α) :=
  order.map fun j => (j, runWorker f (cl.getD j []))

/-- Reassembly strictly by absolute chunk id: look each id up in the
collected results in ascending order and concatenate. -/
def reassemble (collected : List (Nat × List α)) (numChunks : Nat) : List α :=
  ((List.range numChunks).map fun j => (collected.lookup j).getD []).flatten

/-- The page-work scheduler: partition `[0, pageCount)` into chunks, run
each chunk through the per-page operation `f`, collect the chunks in the
completion order `order`, and reassemble by absolute index.  The completion
order is an explicit parameter so that independence from it can be stated. -/
def runParallel (f : Nat → α) (pageCount workerCount : Nat)
    (order : List Nat) : List α :=
  let cl := buildChunks pageCount (chunkSize pageCount workerCount)
  reassemble (collectChunks f cl order) cl.length

/-- Byte positions probed by `range(0, L, step)` for `step > 0`: the
multiples of `step` below `L`. -/
def stridePositions (L step : Nat) : List Nat :=
  (List.range ((L + step - 1) / step)).map (· * step)

/-- The brightness test of `_scan_page_brightness` at byte offset `i` of the
RGB sample buffer: all three channel bytes strictly exceed 240. -/
def isBrightAt (data : List Nat) (i : Nat) : Bool :=
  decide (240 < data.getD i 0) && decide (240 < data.getD (i + 1) 0) &&
    decide (240 < data.getD (i + 2) 0)

/-- The counting loop of `_scan_page_brightness`: walk the buffer with a
stride of `3 * 10` bytes (every 10th pixel); at each offset with a complete
pixel in bounds (`i + 2 < len`), count it as sampled and, when all three
channels exceed 240, as bright.  Accumulator is `(bright, sampled)`. -/
def brightnessCounts (data : List Nat) : Nat × Nat :=
  (stridePositions data.length 30).foldl
    (fun acc i =>
      if i + 2 < data.length then
        (if isBrightAt data i then acc.1 + 1 else acc.1, acc.2 + 1)
      else acc)
    (0, 0)

/-- `_scan_page_brightness` after rasterization: `False` when no pixel was
sampled, otherwise blank iff `bright / sampled ≥ threshold`. -/
def scanPageBrightness (data : List Nat) (threshold : ℚ) : Bool :=
  let counts := brightnessCounts data
  if counts.2 = 0 then false
  else decide (threshold ≤ (counts.1 : ℚ) / (counts.2 : ℚ))

/-! ### Helper lemmas about the quality search -/

/-- Invariant of the binary-search loop: `best` is only ever (re)assigned a
quality whose encoded size fitted the budget, so whenever the loop reports
`found = true` the returned best quality fits. -/
theorem searchLoop_found_le (encode : Nat → Nat) (budget : Nat) :
    ∀ fuel low high best found, (found = true → encode best ≤ budget) →
      (searchLoop encode budget fuel low high best found).2 = true →
      encode (searchLoop encode budget fuel low high best found).1 ≤ budget := by
  intro fuel
  induction fuel with
  | zero =>
    intro low high best found h hf
    simp only [searchLoop] at hf ⊢
    exact h hf
  | succ fuel ih =>
    intro low high best found h hf
    by_cases hq : encode ((low + high) / 2) ≤ budget
    · by_cases hh : high < (low + high) / 2 + 1
      · simp only [searchLoop, if_pos hq, if_pos hh] at hf ⊢
        exact hq
      · simp only [searchLoop, if_pos hq, if_neg hh] at hf ⊢
        exact ih _ _ _ _ (fun _ => hq) hf
    · by_cases hl : (low + high) / 2 - 1 < low
      · simp only [searchLoop, if_neg hq, if_pos hl] at hf ⊢
        exact h hf
      · simp only [searchLoop, if_neg hq, if_neg hl] at hf ⊢
        exact ih _ _ _ _ h hf

/-- Whenever the whole quality search reports `found_solution = True`, the
encoded size at the returned best quality fits the budget. -/
theorem qualitySearch_found_le (encode : Nat → Nat) (budget maxIterations : Nat)
    (h : (jpegQualitySearch encode budget maxIterations).2 = true) :
    encode (jpegQualitySearch encode budget maxIterations).1 ≤ budget := by
  by_cases h95 : encode 95 ≤ budget
  · simpa [jpegQualitySearch, if_pos h95] using h95
  · simp only [jpegQualitySearch, if_neg h95] at h ⊢
    exact searchLoop_found_le encode budget _ _ _ _ _ (by simp) h

/-- Invariant of the binary-search loop: starting from a state whose bounds
and best candidate lie inside `[5, 95]` with `low ≤ high`, the returned best
quality lies inside `[5, 95]`. -/
theorem searchLoop_best_range (encode : Nat → Nat) (budget : Nat) :
    ∀ fuel low high best found, low ≤ high → 5 ≤ low → high ≤ 95 →
      5 ≤ best → best ≤ 95 →
      5 ≤ (searchLoop encode budget fuel low high best found).1 ∧
      (searchLoop encode budget fuel low high best found).1 ≤ 95 := by
  intro fuel
  induction fuel with
  | zero =>
    intro low high best found _ _ _ hb1 hb2
    simp only [searchLoop]
    exact ⟨hb1, hb2⟩
  | succ fuel ih =>
    intro low high best found hlh hl hh hb1 hb2
    have hq1 : low ≤ (low + high) / 2 := by omega
    have hq2 : (low + high) / 2 ≤ high := by omega
    by_cases hq : encode ((low + high) / 2) ≤ budget
    · by_cases hhi : high < (low + high) / 2 + 1
      · simp only [searchLoop, if_pos hq, if_pos hhi]
        constructor <;> omega
      · simp only [searchLoop, if_pos hq, if_neg hhi]
        exact ih _ _ _ _ (by omega) (by omega) hh (by omega) (by omega)
    · by_cases hlo : (low + high) / 2 - 1 < low
      · simp only [searchLoop, if_neg hq, if_pos hlo]
        exact ⟨hb1, hb2⟩
      · simp only [searchLoop, if_neg hq, if_neg hlo]
        exact ih _ _ _ _ (by omega) hl (by omega) hb1 hb2

/-! ### Helper lemmas about chunk building -/

/-- The chunk loop yields nothing once the start index has passed the end. -/
theorem chunksFromF_of_le (fuel n cs i : Nat) (h : n ≤ i) :
    chunksFromF fuel n cs i = [] := by
  cases fuel with
  | zero => rfl
  | succ fuel => simp [chunksFromF, show ¬i < n by omega]

/-- Concatenating the chunks from start index `i` yields exactly the index
interval `[i, n)`, in order. -/
theorem chunksFromF_flatten (n cs : Nat) (hcs : 0 < cs) :
    ∀ fuel i, n - i ≤ fuel →
      (chunksFromF fuel n cs i).flatten = List.range' i (n - i) := by
  intro fuel
  induction fuel with
  | zero =>
    intro i h
    rw [chunksFromF_of_le _ _ _ _ (by omega)]
    simp [show n - i = 0 by omega]
  | succ fuel ih =>
    intro i h
    by_cases hin : i < n
    · simp only [chunksFromF, if_pos hin, List.flatten_cons, ih (i + cs) (by omega)]
      by_cases hc : i + cs ≤ n
      · rw [show min (i + cs) n = i + cs by omega, show i + cs - i = cs by omega]
        have happ := List.range'_append i cs (n - (i + cs)) 1
        rw [one_mul] at happ
        rw [happ, show n - (i + cs) + cs = n - i by omega]
      · rw [show min (i + cs) n = n by omega, show n - (i + cs) = 0 by omega]
        simp
    · rw [chunksFromF_of_le _ _ _ _ (by omega)]
      simp [show n - i = 0 by omega]

/-- All chunks cover `[0, pageCount)` exactly once, in ascending order. -/
theorem buildChunks_flatten (pageCount cs : Nat) (hcs : 0 < cs) :
    (buildChunks pageCount cs).flatten = List.range pageCount := by
  rw [buildChunks, chunksFromF_flatten pageCount cs hcs pageCount 0 (by omega),
    List.range_eq_range']
  simp

/-- Number of chunks from start index `i`: the ceiling `⌈(n - i) / cs⌉`. -/
theorem chunksFromF_length (n cs : Nat) (hcs : 0 < cs) :
    ∀ fuel i, n - i ≤ fuel →
      (chunksFromF fuel n cs i).length = (n - i + cs - 1) / cs := by
  intro fuel
  induction fuel with
  | zero =>
    intro i h
    rw [chunksFromF_of_le _ _ _ _ (by omega)]
    rw [show n - i + cs - 1 = cs - 1 by omega]
    rw [Nat.div_eq_of_lt (by omega)]
    rfl
  | succ fuel ih =>
    intro i h
    by_cases hin : i < n
    · simp only [chunksFromF, if_pos hin, List.length_cons, ih (i + cs) (by omega)]
      have key : (n - (i + cs) + cs - 1) / cs = (n - i - 1) / cs := by
        by_cases hdc : n - i ≤ cs
        · rw [show n - (i + cs) = 0 by omega]
          rw [Nat.div_eq_of_lt (by omega), Nat.div_eq_of_lt (by omega)]
        · rw [show n - (i + cs) + cs - 1 = n - i - 1 by omega]
      rw [key, show n - i + cs - 1 = n - i - 1 + cs by omega,
        Nat.add_div_right _ hcs]
    · rw [chunksFromF_of_le _ _ _ _ (by omega)]
      rw [show n - i + cs - 1 = cs - 1 by omega, Nat.div_eq_of_lt (by omega)]
      rfl

/-- Every chunk the loop builds is nonempty and no longer than `cs`. -/
theorem chunksFromF_mem_size (n cs : Nat) (hcs : 0 < cs) :
    ∀ fuel i c, c ∈ chunksFromF fuel n cs i → 0 < c.length ∧ c.length ≤ cs := by
  intro fuel
  induction fuel with
  | zero => intro i c hc; simp [chunksFromF] at hc
  | succ fuel ih =>
    intro i c hc
    by_cases hin : i < n
    · simp only [chunksFromF, if_pos hin, List.mem_cons] at hc
      rcases hc with rfl | hc
      · simp only [List.length_range']
        omega
      · exact ih _ _ hc
    · simp [chunksFromF, if_neg hin] at hc

/-- Every chunk except the last one has length exactly `cs`. -/
theorem chunksFromF_getD_length (n cs : Nat) (hcs : 0 < cs) :
    ∀ fuel i k, k + 1 < (chunksFromF fuel n cs i).length →
      ((chunksFromF fuel n cs i).getD k []).length = cs := by
  intro fuel
  induction fuel with
  | zero => intro i k hk; simp [chunksFromF] at hk
  | succ fuel ih =>
    intro i k hk
    by_cases hin : i < n
    · simp only [chunksFromF, if_pos hin] at hk ⊢
      cases k with
      | zero =>
        rw [List.length_cons] at hk
        have hrest : chunksFromF fuel n cs (i + cs) ≠ [] := by
          intro he
          rw [he] at hk
          simp at hk
        have hicn : i + cs < n := by
          by_contra hnot
          exact hrest (chunksFromF_of_le fuel n cs (i + cs) (by omega))
        rw [List.getD_cons_zero, List.length_range']
        omega
      | succ k =>
        rw [List.length_cons] at hk
        rw [List.getD_cons_succ]
        exact ih (i + cs) k (by omega)
    · simp [chunksFromF, if_neg hin] at hk

/-! ### Helper lemmas about the scheduler -/

theorem chunkSize_pos (n w : Nat) : 0 < chunkSize n w :=
  lt_of_lt_of_le one_pos (le_max_left 1 (n / w))

/-- Looking up a key in a list of honestly-tagged results finds that key's
result, wherever the key sits in the completion order. -/
theorem lookup_map_tag {β : Type _} (g : Nat → β) :
    ∀ (order : List Nat) (j : Nat), j ∈ order →
      (order.map fun k => (k, g k)).lookup j = some (g j) := by
  intro order
  induction order with
  | nil => intro j hj; simp at hj
  | cons a t ih =>
    intro j hj
    by_cases hja : j = a
    · subst hja
      simp [List.lookup_cons]
    · have hb : (j == a) = false := by simpa using hja
      have hj' : j ∈ t := by
        rcases List.mem_cons.1 hj with h | h
        · exact absurd h hja
        · exact h
      simp [List.lookup_cons, hb, ih j hj']

/-- Reading a list back element-by-element over `range length` reproduces
the list. -/
theorem range_map_getD {β : Type _} (l : List β) (d : β) :
    ((List.range l.length).map fun j => l.getD j d) = l := by
  induction l with
  | nil => simp
  | cons a t ih =>
    rw [List.length_cons, List.range_succ_eq_map]
    simp only [List.map_cons, List.getD_cons_zero, List.map_map]
    congr 1

/-- Reassembling honestly-tagged chunk results collected in any completion
order that is a permutation of the chunk ids reproduces the chunk results in
chunk-id order. -/
theorem reassemble_collect (f : Nat → α) (cl : List (List Nat)) (order : List Nat)
    (hperm : order.Perm (List.range cl.length)) :
    reassemble (collectChunks f cl order) cl.length
      = (cl.map (List.map f)).flatten := by
  unfold reassemble collectChunks runWorker
  have h1 : ∀ j ∈ List.range cl.length,
      (((order.map fun k => (k, (cl.getD k []).map f)).lookup j).getD [])
        = ((cl.map (List.map f)).getD j []) := by
    intro j hj
    have hjo : j ∈ order := hperm.mem_iff.2 hj
    rw [lookup_map_tag (fun k => (cl.getD k []).map f) order j hjo]
    have hmap := List.getD_map cl [] (List.map f) (n := j)
    simp only [List.map_nil] at hmap
    rw [Option.getD_some, ← hmap]
  have h2 : ((List.range cl.length).map fun j => ((cl.map (List.map f)).getD j []))
      = cl.map (List.map f) := by
    have := range_map_getD (cl.map (List.map f)) []
    rwa [List.length_map] at this
  rw [List.map_congr_left h1, h2]

/-- The scheduler's output equals the per-page operation mapped over the
pages in their original order, for any completion order of the chunks. -/
theorem runParallel_eq (f : Nat → α) (n w : Nat) (order : List Nat)
    (hperm : order.Perm (List.range (buildChunks n (chunkSize n w)).length)) :
    runParallel f n w order = (List.range n).map f := by
  unfold runParallel
  rw [reassemble_collect f _ order hperm, ← List.map_flatten,
    buildChunks_flatten n (chunkSize n w) (chunkSize_pos n w)]

/-! ### Helper lemmas about the brightness scan -/

/-- The byte offsets the scan actually samples: stride positions that still
have a complete 3-byte pixel in bounds. -/
def sampledOffsets (data : List Nat) : List Nat :=
  (stridePositions data.length 30).filter fun i => decide (i + 2 < data.length)

/-- The counting fold of `_scan_page_brightness`, characterised: starting
from `(b, s)` it adds the number of bright sampled offsets and the number of
sampled offsets. -/
theorem foldl_counts (data : List Nat) :
    ∀ (l : List Nat) (b s : Nat),
      l.foldl
        (fun acc i =>
          if i + 2 < data.length then
            (if isBrightAt data i then acc.1 + 1 else acc.1, acc.2 + 1)
          else acc)
        (b, s)
      = (b + (l.filter fun i => decide (i + 2 < data.length)).countP (isBrightAt data),
         s + (l.filter fun i => decide (i + 2 < data.length)).length) := by
  intro l
  induction l with
  | nil => intro b s; simp
  | cons a t ih =>
    intro b s
    by_cases ha : a + 2 < data.length
    · have hfil : ((a :: t).filter fun i => decide (i + 2 < data.length))
          = a :: (t.filter fun i => decide (i + 2 < data.length)) := by
        simp [List.filter_cons, ha]
      by_cases hbr : isBrightAt data a = true
      · rw [List.foldl_cons, if_pos ha, if_pos hbr, ih, hfil]
        simp [List.countP_cons, hbr, Prod.ext_iff]
        omega
      · rw [List.foldl_cons, if_pos ha, if_neg hbr, ih, hfil]
        simp [List.countP_cons, hbr, Prod.ext_iff]
        omega
    · have hfil : ((a :: t).filter fun i => decide (i + 2 < data.length))
          = t.filter fun i => decide (i + 2 < data.length) := by
        simp [List.filter_cons, ha]
      rw [List.foldl_cons, if_neg ha, ih, hfil]

/-- `brightnessCounts` is `(bright sampled offsets, sampled offsets)`. -/
theorem brightnessCounts_eq (data : List Nat) :
    brightnessCounts data
      = ((sampledOffsets data).countP (isBrightAt data),
         (sampledOffsets data).length) := by
  unfold brightnessCounts sampledOffsets
  simpa using foldl_counts data (stridePositions data.length 30) 0 0

/-! ### Claim theorems -/

/-- C1: Non-regression of `compress_pdf`: the size left at the output path
never exceeds the original input size, and whenever the size persisted by
the compression attempts exceeds the original, the compressed output is
discarded — the original is copied to the output path, zero-percent
reduction is reported, and the operation returns success. -/
theorem compress_non_regression (save : SaveSettings → ℚ) (originalSize targetMB : ℚ)
    (presetDeflate maxIterations : Nat) :
    (compress_pdf save originalSize targetMB presetDeflate maxIterations).outputSize
        ≤ originalSize ∧
    (originalSize < compressLoop save targetMB presetDeflate maxIterations →
      compress_pdf save originalSize targetMB presetDeflate maxIterations
        = { ok := true, err := none, outputSize := originalSize, reductionPct := 0,
            branch := .usedOriginal }) := by
  simp only [compress_pdf]
  constructor
  · split_ifs with h1 h2
    · exact le_refl originalSize
    · exact not_lt.1 h1
    · exact not_lt.1 h1
  · intro hg
    rw [if_pos hg]

/-- Witness for C1 at a concrete run where every attempt saves 12 MB against
a 10 MB original. -/
theorem compress_non_regression_witness :
    (10 : ℚ) < compressLoop (fun _ => 12) 1 3 5 ∧
    compress_pdf (fun _ => 12) 10 1 3 5
      = { ok := true, err := none, outputSize := 10, reductionPct := 0,
          branch := .usedOriginal } := by
  have h : (10 : ℚ) < compressLoop (fun _ => 12) 1 3 5 := by
    norm_num [compressLoop, compressLoopGo]
  exact ⟨h, (compress_non_regression (fun _ => 12) 10 1 3 5).2 h⟩

/-- C2: Reassembly order: for every page count, worker count and chunk
completion order, the scheduler's output list is the per-page operation
mapped over pages `0..pageCount-1` — the entry at index `i` is `f i`,
independent of which chunk completed first. -/
theorem scheduler_reassembly_order {α : Type _} (f : Nat → α)
    (pageCount workerCount : Nat) (order : List Nat)
    (hperm : order.Perm
      (List.range (buildChunks pageCount (chunkSize pageCount workerCount)).length)) :
    runParallel f pageCount workerCount order = (List.range pageCount).map f ∧
    ∀ i, i < pageCount → ∀ d,
      (runParallel f pageCount workerCount order).getD i d = f i := by
  have heq := runParallel_eq f pageCount workerCount order hperm
  refine ⟨heq, ?_⟩
  intro i hi d
  rw [heq, List.getD_eq_getElem?_getD, List.getElem?_map, List.getElem?_range hi]
  rfl

/-- Witness for C2: 5 pages on 2 workers (3 chunks), the last chunk
completing first. -/
theorem scheduler_reassembly_order_witness :
    ([2, 0, 1].Perm (List.range (buildChunks 5 (chunkSize 5 2)).length)) ∧
    runParallel (fun i => i * 10) 5 2 [2, 0, 1]
        = (List.range 5).map (fun i => i * 10) ∧
    (runParallel (fun i => i * 10) 5 2 [2, 0, 1]).getD 3 0 = 30 := by
  refine ⟨by decide,
    (scheduler_reassembly_order (fun i => i * 10) 5 2 [2, 0, 1] (by decide)).1, ?_⟩
  exact (scheduler_reassembly_order (fun i => i * 10) 5 2 [2, 0, 1] (by decide)).2
    3 (by decide) 0

/-- C3 counterexample: with an encoder whose output always fits (size 0)
with budget 5, the size at quality 100 fits the budget, yet the search
returns quality 95, not 100: the code probes 95, not the claimed maximum
quality 100. -/
theorem quality_search_probe_counterexample :
    (fun _ : Nat => 0) 100 ≤ 5 ∧
    jpegQualitySearch (fun _ => 0) 5 10 = (95, true) ∧
    (jpegQualitySearch (fun _ => 0) 5 10).1 ≠ 100 := by decide

/-- C3 amended: the search first probes quality 95 and, if the encoded size
at 95 already fits the budget, returns immediately with quality 95 without
entering the loop; otherwise it binary searches `[low=5, high=95]` for at
most `max_iterations` (default 10) steps, recording `mid` as best and
setting `low = mid+1` when the encoded size fits, else `high = mid-1`, until
`low > high` — the returned best quality always lies in `[5, 95]`. -/
theorem quality_search_shape_amended (encode : Nat → Nat)
    (budget maxIterations : Nat) :
    (encode 95 ≤ budget →
      jpegQualitySearch encode budget maxIterations = (95, true)) ∧
    (¬encode 95 ≤ budget →
      jpegQualitySearch encode budget maxIterations
          = searchLoop encode budget maxIterations 5 95 5 false ∧
      5 ≤ (jpegQualitySearch encode budget maxIterations).1 ∧
      (jpegQualitySearch encode budget maxIterations).1 ≤ 95) := by
  constructor
  · intro h
    simp [jpegQualitySearch, h]
  · intro h
    have hrange := searchLoop_best_range encode budget maxIterations 5 95 5 false
      (by omega) (by omega) (by omega) (by omega) (by omega)
    have heq : jpegQualitySearch encode budget maxIterations
        = searchLoop encode budget maxIterations 5 95 5 false := by
      rw [jpegQualitySearch, if_neg h]
    refine ⟨heq, ?_, ?_⟩
    · rw [heq]
      exact hrange.1
    · rw [heq]
      exact hrange.2

/-- Witness for C3 amended, on the identity encoder with budget 50 (the
probe at 95 does not fit, the loop finds 50). -/
theorem quality_search_shape_amended_witness :
    ¬(fun q : Nat => q) 95 ≤ 50 ∧
    (jpegQualitySearch (fun q => q) 50 10
        = searchLoop (fun q => q) 50 10 5 95 5 false ∧
     5 ≤ (jpegQualitySearch (fun q => q) 50 10).1 ∧
     (jpegQualitySearch (fun q => q) 50 10).1 ≤ 95) :=
  ⟨by decide, (quality_search_shape_amended (fun q => q) 50 10).2 (by decide)⟩

/-- C4: Budget satisfaction: when the quality search ends with a found
solution, every byte written by the JPEG branch — the single file write at
the found best quality — has size at most `target_size_kb * 1024`, encoding
at a fixed quality being deterministic (`encode` is a function). -/
theorem quality_search_budget_satisfaction
    (pngEncode encode : Nat → Nat) (targetKB maxIterations : Nat)
    (hfound : (jpegQualitySearch encode (targetKB * 1024) maxIterations).2 = true) :
    ∀ w ∈ (resizeToTarget .jpeg pngEncode encode targetKB maxIterations).writes,
      w.size ≤ targetKB * 1024 := by
  have hle := qualitySearch_found_le encode (targetKB * 1024) maxIterations hfound
  intro w hw
  simp only [resizeToTarget, hfound, if_true, List.mem_singleton] at hw
  subst hw
  simpa [FileWrite.size] using hle

/-- Witness for C4 with a constant-zero encoder and a 1 KB budget. -/
theorem quality_search_budget_satisfaction_witness :
    (jpegQualitySearch (fun _ => 0) (1 * 1024) 10).2 = true ∧
    ∀ w ∈ (resizeToTarget .jpeg (fun _ => 0) (fun _ => 0) 1 10).writes,
      FileWrite.size w ≤ 1 * 1024 :=
  ⟨by decide, quality_search_budget_satisfaction (fun _ => 0) (fun _ => 0) 1 10 (by decide)⟩

/-- Preset independence of the attempt loop: the per-attempt
`current_deflate` value is dead, so the sizes persisted by the loop do not
depend on the preset's deflate level at all. -/
theorem compressLoopGo_preset_indep (save : SaveSettings → ℚ) (targetMB : ℚ)
    (p1 p2 : Nat) : ∀ fuel attempt lastSize,
    compressLoopGo save targetMB p1 fuel attempt lastSize
      = compressLoopGo save targetMB p2 fuel attempt lastSize := by
  intro fuel
  induction fuel with
  | zero => intro a l; rfl
  | succ fuel ih =>
    intro a l
    simp only [compressLoopGo]
    split_ifs
    · rfl
    · exact ih _ _

/-- C5 (code bug): each attempt of `compress_pdf` computes
`current_deflate = min(preset_deflate + attempt, 9)` — escalating exactly as
the claim states — but the settings actually passed to `doc.save` are
identical on every attempt (the computed level is never used), and
consequently the loop's persisted sizes are independent of the preset
deflate level. -/
theorem deflate_escalation_never_applied :
    (∀ presetDeflate attempt : Nat,
      currentDeflate presetDeflate attempt = min (presetDeflate + attempt) 9) ∧
    (∀ attempt : Nat, saveSettingsAt attempt = saveSettingsAt 0) ∧
    currentDeflate (qualitySettings "medium").deflate 0 = 3 ∧
    currentDeflate (qualitySettings "medium").deflate 1 = 4 ∧
    currentDeflate (qualitySettings "medium").deflate 0
        ≠ currentDeflate (qualitySettings "medium").deflate 1 ∧
    (∀ (save : SaveSettings → ℚ) (targetMB : ℚ) (p1 p2 maxIterations : Nat),
      compressLoop save targetMB p1 maxIterations
        = compressLoop save targetMB p2 maxIterations) := by
  refine ⟨fun _ _ => rfl, fun _ => rfl, by decide, by decide, by decide, ?_⟩
  intro save targetMB p1 p2 maxIterations
  exact compressLoopGo_preset_indep save targetMB p1 p2 maxIterations 0 0

/-- C6 counterexample: 9 pages with 4 workers give `chunk_size = 2` and
therefore 5 chunks, not `worker_count = 4`; the last chunk holds only the
single leftover index rather than absorbing the remainder into a bigger
chunk. -/
theorem chunk_count_counterexample :
    chunkSize 9 4 = 2 ∧
    buildChunks 9 (chunkSize 9 4) = [[0, 1], [2, 3], [4, 5], [6, 7], [8]] ∧
    (buildChunks 9 (chunkSize 9 4)).length = 5 ∧
    (buildChunks 9 (chunkSize 9 4)).length ≠ 4 := by decide

/-- C6 amended: for every `page_count ≥ 1` and `worker_count ≥ 1`, the
extraction scheduler partitions `[0, page_count)` into
`⌈page_count / chunk_size⌉` contiguous ascending chunks, where
`chunk_size = max(1, page_count // worker_count)`; every chunk except the
last has exactly `chunk_size` indices, and every chunk (the last included)
is nonempty with at most `chunk_size` indices. -/
theorem chunk_partition_shape_amended (pageCount workerCount : Nat)
    (hn : 1 ≤ pageCount) (_hw : 1 ≤ workerCount) :
    (buildChunks pageCount (chunkSize pageCount workerCount)).length
        = (pageCount + chunkSize pageCount workerCount - 1)
            / chunkSize pageCount workerCount ∧
    (buildChunks pageCount (chunkSize pageCount workerCount)).flatten
        = List.range pageCount ∧
    (∀ k, k + 1 < (buildChunks pageCount (chunkSize pageCount workerCount)).length →
      ((buildChunks pageCount (chunkSize pageCount workerCount)).getD k []).length
          = chunkSize pageCount workerCount) ∧
    (∀ c ∈ buildChunks pageCount (chunkSize pageCount workerCount),
      0 < c.length ∧ c.length ≤ chunkSize pageCount workerCount) := by
  have hcs := chunkSize_pos pageCount workerCount
  refine ⟨?_, ?_, ?_, ?_⟩
  · have := chunksFromF_length pageCount (chunkSize pageCount workerCount) hcs
      pageCount 0 (by omega)
    simpa [buildChunks] using this
  · exact buildChunks_flatten pageCount _ hcs
  · intro k hk
    exact chunksFromF_getD_length pageCount _ hcs pageCount 0 k hk
  · intro c hc
    exact chunksFromF_mem_size pageCount _ hcs pageCount 0 c hc

/-- Witness for C6 amended at 9 pages, 4 workers. -/
theorem chunk_partition_shape_amended_witness :
    (1 ≤ 9 ∧ 1 ≤ 4) ∧
    (buildChunks 9 (chunkSize 9 4)).length
        = (9 + chunkSize 9 4 - 1) / chunkSize 9 4 ∧
    (buildChunks 9 (chunkSize 9 4)).flatten = List.range 9 ∧
    (∀ k, k + 1 < (buildChunks 9 (chunkSize 9 4)).length →
      ((buildChunks 9 (chunkSize 9 4)).getD k []).length = chunkSize 9 4) ∧
    (∀ c ∈ buildChunks 9 (chunkSize 9 4), 0 < c.length ∧ c.length ≤ chunkSize 9 4) :=
  ⟨⟨by decide, by decide⟩,
    chunk_partition_shape_amended 9 4 (by decide) (by decide)⟩

/-- C7: Chunk coverage invariant: for every page count and positive chunk
size, the concatenation of the chunks built for one job is exactly
`0, 1, ..., page_count - 1` — no gaps, no duplicates. -/
theorem chunk_coverage (pageCount cs : Nat) (hcs : 0 < cs) :
    (buildChunks pageCount cs).flatten = List.range pageCount :=
  buildChunks_flatten pageCount cs hcs

/-- Witness for C7 at 7 pages with chunk size 3. -/
theorem chunk_coverage_witness :
    0 < 3 ∧ (buildChunks 7 3).flatten = List.range 7 :=
  ⟨by decide, chunk_coverage 7 3 (by decide)⟩

/-- C8: Blank-page classification rule: the scan samples the buffer at a
fixed 30-byte stride (every 10th RGB pixel), counts a sampled offset as
bright exactly when all three channel bytes exceed 240, and reports blank
iff at least one pixel was sampled and the bright fraction reaches the
whiteness threshold; with zero sampled pixels it reports not-blank. -/
theorem blank_page_classification (data : List Nat) (threshold : ℚ) :
    scanPageBrightness data threshold = true ↔
      (0 < (sampledOffsets data).length ∧
       threshold ≤ ((sampledOffsets data).countP (isBrightAt data) : ℚ)
          / ((sampledOffsets data).length : ℚ)) := by
  unfold scanPageBrightness
  rw [brightnessCounts_eq data]
  by_cases hz : (sampledOffsets data).length = 0
  · simp [hz]
  · simp only [hz, if_false, decide_eq_true_eq]
    constructor
    · intro h
      exact ⟨Nat.pos_of_ne_zero hz, h⟩
    · intro h
      exact h.2

/-- C9: Infeasibility is not an error: when no probed quality fits, the
JPEG branch still returns success, writes once at the floor quality 5 and
only warns; and `compress_pdf` always returns success — in particular, when
the loop ends above the tolerance (and did not regress past the original),
it reports the achieved size with a target-not-met branch. -/
theorem infeasibility_reports_success
    (pngEncode encode : Nat → Nat) (targetKB maxIterations : Nat)
    (save : SaveSettings → ℚ) (originalSize targetMB : ℚ)
    (presetDeflate maxIterations2 : Nat) :
    ((jpegQualitySearch encode (targetKB * 1024) maxIterations).2 = false →
      resizeToTarget .jpeg pngEncode encode targetKB maxIterations
        = { ok := true, err := none, writes := [.jpeg 5 (encode 5)],
            warnedPngLimit := false, warnedFloor := true }) ∧
    (compress_pdf save originalSize targetMB presetDeflate maxIterations2).ok
        = true ∧
    (compress_pdf save originalSize targetMB presetDeflate maxIterations2).err
        = none ∧
    (¬compressLoop save targetMB presetDeflate maxIterations2
        ≤ targetMB * (105 / 100) →
      compressLoop save targetMB presetDeflate maxIterations2 ≤ originalSize →
      (compress_pdf save originalSize targetMB presetDeflate maxIterations2).branch
          = .targetNotMet ∧
      (compress_pdf save originalSize targetMB presetDeflate maxIterations2).outputSize
          = compressLoop save targetMB presetDeflate maxIterations2) := by
  refine ⟨?_, ?_, ?_, ?_⟩
  · intro hf
    simp [resizeToTarget, hf]
  · simp only [compress_pdf]
    split_ifs <;> rfl
  · simp only [compress_pdf]
    split_ifs <;> rfl
  · intro h1 h2
    simp only [compress_pdf]
    rw [if_neg (not_lt.2 h2), if_neg h1]
    exact ⟨rfl, rfl⟩

/-- Witness for C9: an encoder that never fits a 1 KB budget, and a
document whose every save is 8 MB against a 1 MB target and 10 MB
original. -/
theorem infeasibility_reports_success_witness :
    (jpegQualitySearch (fun _ => 999999) (1 * 1024) 10).2 = false ∧
    resizeToTarget .jpeg (fun _ => 0) (fun _ => 999999) 1 10
      = { ok := true, err := none, writes := [.jpeg 5 999999],
          warnedPngLimit := false, warnedFloor := true } ∧
    ¬compressLoop (fun _ => 8) 1 3 5 ≤ (1 : ℚ) * (105 / 100) ∧
    compressLoop (fun _ => 8) 1 3 5 ≤ (10 : ℚ) ∧
    (compress_pdf (fun _ => 8) 10 1 3 5).ok = true ∧
    (compress_pdf (fun _ => 8) 10 1 3 5).branch = .targetNotMet ∧
    (compress_pdf (fun _ => 8) 10 1 3 5).outputSize = compressLoop (fun _ => 8) 1 3 5 := by
  have hs := infeasibility_reports_success (fun _ => 0) (fun _ => 999999) 1 10
    (fun _ => 8) 10 1 3 5
  have h1 : ¬compressLoop (fun _ => 8) 1 3 5 ≤ (1 : ℚ) * (105 / 100) := by
    norm_num [compressLoop, compressLoopGo]
  have h2 : compressLoop (fun _ => 8) 1 3 5 ≤ (10 : ℚ) := by
    norm_num [compressLoop, compressLoopGo]
  exact ⟨by decide, hs.1 (by decide), h1, h2, hs.2.1,
    (hs.2.2.2 h1 h2).1, (hs.2.2.2 h1 h2).2⟩

/-- C10: PNG bypass: with output format PNG and a target size, the result
does not depend on the JPEG encoder at all (no quality search happens), the
image is written exactly once at maximum PNG compression (`compress_level`
9), the operation returns `(True, None)` unconditionally, and the only
reaction to exceeding the target is the warning flag. -/
theorem png_target_bypass (pngEncode encode encode2 : Nat → Nat)
    (targetKB maxIterations : Nat) :
    resizeToTarget .png pngEncode encode targetKB maxIterations
        = resizeToTarget .png pngEncode encode2 targetKB maxIterations ∧
    (resizeToTarget .png pngEncode encode targetKB maxIterations).writes
        = [.png 9 (pngEncode 9)] ∧
    (resizeToTarget .png pngEncode encode targetKB maxIterations).ok = true ∧
    (resizeToTarget .png pngEncode encode targetKB maxIterations).err = none ∧
    (resizeToTarget .png pngEncode encode targetKB maxIterations).warnedPngLimit
        = decide (targetKB * 1024 < pngEncode 9) :=
  ⟨rfl, rfl, rfl, rfl, rfl⟩

end PDFWizard
